import Mathlib

/-!
Verification of `orthoseg/model/model_helper.py`.

The development is a shallow embedding of the module in Lean 4, in three layers
that mirror the module's own layering:

* the retention engine of `save_and_clean_models` (the keep/discard
  classification of model records and the iteration that saves the new
  candidate and deletes discarded files), modelled over an abstract record
  type `ModelRecord` whose accuracy scores are exact rationals;
* the filename codec (`format_model_basefilename`, `format_model_filename`,
  `parse_model_filename`), modelled at the character level over `List Char`,
  with Python's `int()` / `float()` / `str.split` / `Path.stem` behaviour made
  explicit, and uncaught Python exceptions modelled by `Except`;
* the registry scanner (`get_models`, `get_max_data_version`,
  `get_best_model`).

Numeric accuracy values are modelled as exact rationals; the filename
formatter is modelled for values that are exact multiples of 10^-5 (the
idealized decimal semantics of Python's `f"{x:.5f}"` on that domain).
-/

namespace ModelHelper

/-! ## Retention layer: records and the keep/discard classification

One row of the dataframe assembled inside `save_and_clean_models`: a file path
plus the three accuracy scores used for classification.  Only the fields the
retention loop actually reads are carried. -/

structure ModelRecord where
  filepath : String
  acc_combined : ℚ
  acc_train : ℚ
  acc_val : ℚ
deriving DecidableEq, Repr

/-- Classification of one record against the full candidate set, mirroring the
`better_ones_df` filters of `save_and_clean_models`: under `save_best_only` a
record is kept unless some record with a different filepath has
`acc_combined >= its own`; otherwise (pareto) it is kept unless some record
with a different filepath is `>=` on all three of `acc_combined`, `acc_train`,
`acc_val`. -/
def keep_model (save_best_only : Bool) (all : List ModelRecord) (r : ModelRecord) : Bool :=
  if save_best_only then
    !(all.any fun o => o.filepath != r.filepath && decide (r.acc_combined ≤ o.acc_combined))
  else
    !(all.any fun o => o.filepath != r.filepath && decide (r.acc_combined ≤ o.acc_combined)
        && decide (r.acc_train ≤ o.acc_train) && decide (r.acc_val ≤ o.acc_val))

/-- Records of `S` classified keep when the whole of `S` is the candidate set. -/
def classify_keeps (save_best_only : Bool) (S : List ModelRecord) : List ModelRecord :=
  S.filter (fun r => keep_model save_best_only S r)

/-- Filesystem side effects performed by the retention loop, in execution
order: persisting the new candidate, or deleting a discarded artifact
(`unlink` and `shutil.rmtree` both simply remove the path). -/
inductive PyEvent where
  | save (path : String)
  | delete (path : String)
deriving DecidableEq, Repr

/-- Descending order on `acc_combined`, the sort key of
`sort_values(by='acc_combined', ascending=False)`. -/
def combinedDescRel (a b : ModelRecord) : Prop :=
  b.acc_combined ≤ a.acc_combined

instance : DecidableRel combinedDescRel :=
  fun a b => inferInstanceAs (Decidable (b.acc_combined ≤ a.acc_combined))

instance : IsTotal ModelRecord combinedDescRel :=
  ⟨fun a b => le_total b.acc_combined a.acc_combined⟩

instance : IsTrans ModelRecord combinedDescRel :=
  ⟨fun _ _ _ h₁ h₂ => le_trans h₂ h₁⟩

/-- Body of the `for _, model_info in model_info_sorted_df.iterrows()` loop of
`save_and_clean_models`.  `all` is the unsorted full candidate set
(`model_info_df`), `candPath` is `str(new_model_path)` when a new model was
passed, `l` is the remaining sorted rows and `disk` is the set of paths
currently existing on disk.  A kept row that is the unsaved new candidate is
persisted (`new_model.save`); a discarded row whose path exists is deleted.
Returns the event trace in execution order and the final disk contents. -/
def save_and_clean_loop (save_best_only only_report : Bool) (all : List ModelRecord)
    (candPath : Option String) :
    List ModelRecord → List String → List PyEvent × List String
  | [], disk => ([], disk)
  | r :: rest, disk =>
    if keep_model save_best_only all r then
      match candPath with
      | some p =>
        if only_report = false ∧ r.filepath = p ∧ p ∉ disk then
          let res := save_and_clean_loop save_best_only only_report all (some p) rest (p :: disk)
          (PyEvent.save p :: res.1, res.2)
        else
          save_and_clean_loop save_best_only only_report all (some p) rest disk
      | none => save_and_clean_loop save_best_only only_report all none rest disk
    else
      if only_report then
        save_and_clean_loop save_best_only only_report all candPath rest disk
      else if r.filepath ∈ disk then
        let res := save_and_clean_loop save_best_only only_report all candPath rest
          (disk.filter (fun q => q != r.filepath))
        (PyEvent.delete r.filepath :: res.1, res.2)
      else
        save_and_clean_loop save_best_only only_report all candPath rest disk

/-- Record-level model of one retention cycle of `save_and_clean_models`: the
scanned existing records (whose files are on disk) plus the optional new
candidate (appended at the end, as `df.append` does; its file is not yet on
disk) are sorted descending by `acc_combined` and iterated.  The comparison
`model_info['filepath'] == str(new_model_path)` only selects the candidate row,
which my single `String` filepath type reproduces whenever the candidate path
differs textually from every existing path (the situation of every theorem
below). -/
def save_and_clean_models (save_best_only only_report : Bool)
    (existing : List ModelRecord) (cand : Option ModelRecord) : List PyEvent × List String :=
  let all := existing ++ cand.toList
  let sorted := all.insertionSort combinedDescRel
  save_and_clean_loop save_best_only only_report all (cand.map (·.filepath)) sorted
    (existing.map (·.filepath))

/-- Check that no `delete` of a path satisfying `isSmall` occurs before the
`save` of `sp` in an event trace (true when the trace has no such early
delete; trivially true if the save never happens and no small path is ever
deleted). -/
def saveBeforeDeletes (sp : String) (isSmall : String → Bool) : List PyEvent → Bool
  | [] => true
  | PyEvent.save q :: rest => q == sp || saveBeforeDeletes sp isSmall rest
  | PyEvent.delete q :: rest => !isSmall q && saveBeforeDeletes sp isSmall rest

/-- Normalization of the raw monitored metrics of a new candidate into stored
accuracy scores, from the `monitor_metric_mode` branch of
`save_and_clean_models`: result is `(acc_combined, acc_train, acc_val)`. -/
def compute_candidate_scores (monitor_metric_mode : String) (t v : ℚ) : ℚ × ℚ × ℚ :=
  let combined := (t + v) / 2
  if monitor_metric_mode = "max" then (combined, t, v)
  else (1 - combined, 1 - t, 1 - v)

/-! ## Codec layer: Python strings as character lists -/

/-- Python strings, modelled as lists of characters so that splitting and
concatenation admit exact proofs. -/
abbrev Str := List Char

/-- Decimal digit character for a value below ten. -/
def digitChar : Nat → Char
  | 0 => '0' | 1 => '1' | 2 => '2' | 3 => '3' | 4 => '4'
  | 5 => '5' | 6 => '6' | 7 => '7' | 8 => '8' | 9 => '9'
  | _ => '*'

/-- Decimal rendering of a natural number, as Python's `str`. -/
def natToStr (n : Nat) : Str :=
  if _h : n < 10 then [digitChar n]
  else natToStr (n / 10) ++ [digitChar (n % 10)]
decreasing_by exact Nat.div_lt_self (by omega) (by omega)

/-- Decimal rendering of an integer, as Python's `str` / `f"{n}"`. -/
def intToStr (n : Int) : Str :=
  if n < 0 then '-' :: natToStr n.natAbs else natToStr n.toNat

/-- Python's `f"{n:02d}"`: zero-padded to overall width two (the sign counts
towards the width). -/
def pad2I (n : Int) : Str :=
  if 0 ≤ n ∧ n < 10 then '0' :: natToStr n.toNat else intToStr n

/-- Numeric value of a string of decimal digits (most significant first). -/
def digitsVal (s : Str) : Nat :=
  s.foldl (fun a c => 10 * a + (c.toNat - 48)) 0

/-- Python's `str.isdigit` restricted to ASCII: nonempty and all digits. -/
def pyIsDigit (s : Str) : Bool :=
  !s.isEmpty && s.all Char.isDigit

/-- Python's `int(s)` on a decimal literal: optional sign followed by at least
one digit; `none` models an uncaught `ValueError`. -/
def pyInt? (s : Str) : Option Int :=
  match s with
  | [] => none
  | c :: t =>
    if c = '-' then (if pyIsDigit t then some (-(digitsVal t : Int)) else none)
    else if c = '+' then (if pyIsDigit t then some ((digitsVal t : Int)) else none)
    else if pyIsDigit (c :: t) then some ((digitsVal (c :: t) : Int)) else none

/-- Characters before the first `'.'` (all of `s` when there is none). -/
def takeToDot : Str → Str
  | [] => []
  | c :: t => if c = '.' then [] else c :: takeToDot t

/-- The first `'.'` of `s` and everything after it (empty when there is none). -/
def dropToDot : Str → Str
  | [] => []
  | c :: t => if c = '.' then c :: t else dropToDot t

/-- Unsigned part of Python's `float(s)`: digits with at most one dot, at
least one digit overall. -/
def pyFloatCore (u : Str) : Option ℚ :=
  let ip := takeToDot u
  match dropToDot u with
  | [] => if pyIsDigit ip then some ((digitsVal ip : ℚ)) else none
  | _ :: fp =>
    if ip.all Char.isDigit && fp.all Char.isDigit && !(ip.isEmpty && fp.isEmpty) then
      some ((digitsVal ip : ℚ) + (digitsVal fp : ℚ) / (10 : ℚ) ^ fp.length)
    else none

/-- Python's `float(s)` on plain decimal literals (optional sign, digits,
optional single dot): the exact rational value; `none` models an uncaught
`ValueError`.  Exponent/infinity forms never occur in this module's inputs. -/
def pyFloat? (s : Str) : Option ℚ :=
  match s with
  | [] => none
  | c :: t =>
    if c = '-' then (pyFloatCore t).map (fun q => -q)
    else if c = '+' then pyFloatCore t
    else pyFloatCore (c :: t)

/-- Python's `s.split(sep)` for a one-character separator: cuts at every
occurrence, keeping empty pieces; the result is always nonempty. -/
def splitOnChar (c : Char) : Str → List Str
  | [] => [[]]
  | x :: rest =>
    if x = c then [] :: splitOnChar c rest
    else
      match splitOnChar c rest with
      | [] => [[x]]
      | h :: t => (x :: h) :: t

/-- Python's `sep.join(pieces)`. -/
def pyJoin (sep : Str) : List Str → Str
  | [] => []
  | [x] => x
  | x :: y :: xs => x ++ sep ++ pyJoin sep (y :: xs)

/-- Python's `s.endswith(t)`. -/
def pyEndsWith (s t : Str) : Bool :=
  decide (t <:+ s)

/-- Python `PurePath` stem/suffix: the suffix starts at the last dot, provided
that dot is neither the first nor the last character of the name; otherwise
the suffix is empty and the stem is the whole name.  Returns
`(stem, suffix)`. -/
def splitExt (s : Str) : Str × Str :=
  match dropToDot s.reverse with
  | [] => (s, [])
  | _ :: revStem =>
    let ext := takeToDot s.reverse
    if revStem ≠ [] ∧ ext ≠ [] then (revStem.reverse, '.' :: ext.reverse) else (s, [])

/-- Five-digit zero-padded decimal rendering, for remainders below `10^5`. -/
def pad5 (m : Nat) : Str :=
  List.replicate (5 - (natToStr m).length) '0' ++ natToStr m

/-- Python's `f"{x:.5f}"` for a value that is exactly `k / 10^5` (the only
values this module ever formats in the claims' well-formed domain): sign,
integer part, dot, and exactly five fractional digits. -/
def acc5Str (k : Int) : Str :=
  (if k < 0 then ['-'] else []) ++
    natToStr (k.natAbs / 100000) ++ '.' :: pad5 (k.natAbs % 100000)

/-- The suffix literal `"_tf"` marking SavedModel directories. -/
def tfMark : Str := ['_', 't', 'f']

/-- Model of `format_model_basefilename`: identity-only base name
`{subject}_{traindata_version:02d}_{architecture}` plus `+{hv:02d}` when the
hyperparams version is positive. -/
def format_model_basefilename (segment_subject : Str) (traindata_version : Int)
    (model_architecture : Str) (hyperparams_version : Int) : Str :=
  segment_subject ++ '_' :: pad2I traindata_version ++ '_' :: model_architecture ++
    (if 0 < hyperparams_version then '+' :: pad2I hyperparams_version else [])

/-- Model of `format_model_filename`: base name, three accuracies at five
decimals (given as exact multiples of `10^-5` via their scaled integer
numerators), the epoch, and the save-format suffix (`"_tf"` for the
`tf` format, extension `".hdf5"` otherwise). -/
def format_model_filename (segment_subject : Str) (traindata_version : Int)
    (model_architecture : Str) (hyperparams_version : Int)
    (acc_train acc_val acc_combined : Int) (epoch : Int) (save_format : Str) : Str :=
  format_model_basefilename segment_subject traindata_version model_architecture
      hyperparams_version ++
    '_' :: acc5Str acc_combined ++ '_' :: acc5Str acc_train ++ '_' :: acc5Str acc_val ++
    '_' :: intToStr epoch ++
    (if save_format = ['t', 'f'] then tfMark else ['.', 'h', 'd', 'f', '5'])

/-- A directory entry: its final name component and whether it is a
directory. -/
structure PyPath where
  name : Str
  isDir : Bool
deriving DecidableEq, Repr

/-- Uncaught Python exceptions that `parse_model_filename` can raise. -/
inductive PyExc where
  | indexError
  | valueError
deriving DecidableEq, Repr

/-- The dictionary returned by `parse_model_filename`. -/
structure ModelInfo where
  filepath : PyPath
  filename : Str
  basefilename : Str
  segment_subject : Str
  traindata_version : Int
  model_architecture : Str
  hyperparams_version : Int
  acc_combined : ℚ
  acc_train : ℚ
  acc_val : ℚ
  epoch : Int
  save_format : Str
deriving DecidableEq, Repr

/-- First step of `parse_model_filename`: validate the path shape and obtain
the string that will be split plus the save format.  A directory must end in
`"_tf"`; a file must have suffix `.h5` or `.hdf5` (its stem is used);
otherwise the function logs and returns `None`. -/
def parse_format_check (p : PyPath) : Option (Str × Str) :=
  if p.isDir then
    if pyEndsWith p.name tfMark then some (p.name, ['t', 'f']) else none
  else
    let se := splitExt p.name
    if se.2 = ['.', 'h', '5'] ∨ se.2 = ['.', 'h', 'd', 'f', '5'] then some (se.1, ['h', '5'])
    else none

/-- The hyperparams-version recovery of `parse_model_filename`: split the
third field on `'+'`; a digits-only final piece is the hyperparams version and
the rest re-joined is the architecture, otherwise the version is 0 and the
whole field is the architecture.  Returns `(hyperparams_version,
model_architecture)`. -/
def parse_hyperparams (model_train_info : Str) : Int × Str :=
  let mtiv := splitOnChar '+' model_train_info
  let lastPiece := mtiv.getLastD []
  if pyIsDigit lastPiece then ((digitsVal lastPiece : Int), pyJoin ['+'] mtiv.dropLast)
  else (0, model_train_info)

/-- Python's `float(s)` as an effect: `ValueError` on failure. -/
def pyFloatE (s : Str) : Except PyExc ℚ :=
  match pyFloat? s with
  | none => Except.error PyExc.valueError
  | some q => Except.ok q

/-- Python's `int(s)` as an effect: `ValueError` on failure. -/
def pyIntE (s : Str) : Except PyExc Int :=
  match pyInt? s with
  | none => Except.error PyExc.valueError
  | some n => Except.ok n

/-- Python's `param_values[i]` as an effect: `IndexError` when out of range. -/
def getFieldE (pv : List Str) (i : Nat) : Except PyExc Str :=
  match pv[i]? with
  | none => Except.error PyExc.indexError
  | some x => Except.ok x

/-- The accuracy/epoch block of `parse_model_filename`: whenever the stem has
MORE than 3 fields (the source checks `len(param_values) > 3`, not `>= 7`),
fields 3..6 are read in order — raising `IndexError` when one of fields 4..6
is missing and `ValueError` when a field is not numeric; with at most 3 fields
all four values default to zero. -/
def parse_accuracies (pv : List Str) : Except PyExc (ℚ × ℚ × ℚ × Int) :=
  if 3 < pv.length then do
    let a_c ← pyFloatE (pv.getD 3 [])
    let s4 ← getFieldE pv 4
    let a_t ← pyFloatE s4
    let s5 ← getFieldE pv 5
    let a_v ← pyFloatE s5
    let s6 ← getFieldE pv 6
    let ep ← pyIntE s6
    pure (a_c, a_t, a_v, ep)
  else Except.ok (0, 0, 0, 0)

/-- Model of `parse_model_filename`.  `Except.error` is an uncaught Python
exception escaping the function; `.ok none` is the logged `return None` of the
invalid-path branches.  Faithful to the source, the `len < 3` check only logs
a warning and does NOT return, so the subsequent `param_values[1]` /
`param_values[2]` indexing raises `IndexError`; likewise the accuracy block
runs whenever there are more than 3 fields and raises when fields 4..6 are
missing (`IndexError`) or non-numeric (`ValueError`). -/
def parse_model_filename (p : PyPath) : Except PyExc (Option ModelInfo) :=
  match parse_format_check p with
  | none => Except.ok none
  | some (filename, save_format) =>
    let pv := splitOnChar '_' filename
    let segment_subject := pv.headD []
    match pv[1]? with
    | none => Except.error PyExc.indexError
    | some s1 =>
      match pyInt? s1 with
      | none => Except.error PyExc.valueError
      | some traindata_version =>
        match pv[2]? with
        | none => Except.error PyExc.indexError
        | some model_train_info =>
          let hv_arch : Int × Str := parse_hyperparams model_train_info
          match parse_accuracies pv with
          | Except.error e => Except.error e
          | Except.ok (a_c, a_t, a_v, ep) =>
            Except.ok (some
              { filepath := p
                filename := filename
                basefilename := format_model_basefilename segment_subject traindata_version
                  hv_arch.2 hv_arch.1
                segment_subject := segment_subject
                traindata_version := traindata_version
                model_architecture := hv_arch.2
                hyperparams_version := hv_arch.1
                acc_combined := a_c
                acc_train := a_t
                acc_val := a_v
                epoch := ep
                save_format := save_format })

/-! ## Scanner layer: `get_models`, `get_max_data_version`, `get_best_model` -/

/-- The decode loop of `get_models`: each entry is parsed; `None` results are
skipped, but an uncaught exception aborts the whole scan (there is no
`try/except` around `parse_model_filename`). -/
def get_models_scan : List PyPath → Except PyExc (List ModelInfo)
  | [] => Except.ok []
  | p :: rest =>
    match parse_model_filename p with
    | Except.error e => Except.error e
    | Except.ok none => get_models_scan rest
    | Except.ok (some info) =>
      match get_models_scan rest with
      | Except.error e => Except.error e
      | Except.ok l => Except.ok (info :: l)

/-- The optional equality filters of `get_models` (applying them to an empty
frame is a no-op, as in the source). -/
def matches_filters (segment_subject model_architecture : Option Str)
    (traindata_version hyperparams_version : Option Int) (r : ModelInfo) : Bool :=
  (match segment_subject with | none => true | some s => r.segment_subject == s) &&
  (match model_architecture with | none => true | some a => r.model_architecture == a) &&
  (match traindata_version with | none => true | some tv => r.traindata_version == tv) &&
  (match hyperparams_version with | none => true | some hv => r.hyperparams_version == hv)

/-- Model of `get_models`: scan the directory entries and filter. -/
def get_models (entries : List PyPath) (segment_subject model_architecture : Option Str)
    (traindata_version hyperparams_version : Option Int) : Except PyExc (List ModelInfo) :=
  match get_models_scan entries with
  | Except.error e => Except.error e
  | Except.ok l =>
    Except.ok (l.filter (matches_filters segment_subject model_architecture
      traindata_version hyperparams_version))

/-- Maximum `traindata_version` of a nonempty record list; `-1` for the empty
list, folding in the `len > 0` guard of `get_max_data_version`. -/
def df_max_traindata_version : List ModelInfo → Int
  | [] => -1
  | h :: t => t.foldl (fun m r => max m r.traindata_version) h.traindata_version

/-- Model of `get_max_data_version`: maximum over the UNFILTERED scan of the
directory, `-1` when it holds no decodable model. -/
def get_max_data_version (entries : List PyPath) : Except PyExc Int :=
  match get_models entries none none none none with
  | Except.error e => Except.error e
  | Except.ok df => Except.ok (df_max_traindata_version df)

/-- Numpy's `argmax` over `acc_combined` as used by `get_best_model`: the
first record attaining the maximum; `none` on an empty frame (the
`len > 0` guard). -/
def argmax_acc_combined : List ModelInfo → Option ModelInfo
  | [] => none
  | h :: t => some (t.foldl (fun best r => if best.acc_combined < r.acc_combined then r else best) h)

/-- Model of `get_best_model`: filter by the given identity fields; when no
`traindata_version` filter is given, pin the version to
`get_max_data_version` of the whole directory (ignoring the other filters),
returning `none` on its `-1` sentinel; then take the first record with
maximal `acc_combined`. -/
def get_best_model (entries : List PyPath) (segment_subject : Option Str)
    (traindata_version : Option Int) (model_architecture : Option Str)
    (hyperparams_version : Option Int) : Except PyExc (Option ModelInfo) :=
  match get_models entries segment_subject model_architecture traindata_version
      hyperparams_version with
  | Except.error e => Except.error e
  | Except.ok df =>
    match traindata_version with
    | some _ => Except.ok (argmax_acc_combined df)
    | none =>
      match get_max_data_version entries with
      | Except.error e => Except.error e
      | Except.ok maxv =>
        if maxv = -1 then Except.ok none
        else Except.ok (argmax_acc_combined
          (df.filter (fun r => r.traindata_version == maxv)))

/-- Paths of records in `all` whose `acc_combined` is strictly below the
candidate's (the deletes that the descending sort provably orders after the
candidate's save). -/
def pareto_smaller_paths (all : List ModelRecord) (cand : ModelRecord) (q : String) : Bool :=
  all.any fun r => r.filepath == q && decide (r.acc_combined < cand.acc_combined)

/-- The class of deletes that provably happen after the candidate's save:
every delete under the best-only policy, and deletes of records with strictly
smaller `acc_combined` under the pareto policy. -/
def small_for (save_best_only : Bool) (all : List ModelRecord) (cand : ModelRecord) :
    String → Bool :=
  if save_best_only then (fun _ => true) else pareto_smaller_paths all cand

/-! ## Retention layer lemmas and theorems -/

lemma keep_model_pareto_false_iff (all : List ModelRecord) (r : ModelRecord) :
    keep_model false all r = false ↔
      ∃ o ∈ all, o.filepath ≠ r.filepath ∧ r.acc_combined ≤ o.acc_combined ∧
        r.acc_train ≤ o.acc_train ∧ r.acc_val ≤ o.acc_val := by
  simp [keep_model, List.any_eq_true, and_assoc]

lemma keep_model_best_false_iff (all : List ModelRecord) (r : ModelRecord) :
    keep_model true all r = false ↔
      ∃ o ∈ all, o.filepath ≠ r.filepath ∧ r.acc_combined ≤ o.acc_combined := by
  simp [keep_model, List.any_eq_true]

lemma keep_model_mono (p : Bool) {S S' : List ModelRecord} (hsub : ∀ o ∈ S', o ∈ S)
    (r : ModelRecord) (h : keep_model p S r = true) : keep_model p S' r = true := by
  by_contra hne
  have hfalse : keep_model p S' r = false := by
    cases hb : keep_model p S' r
    · rfl
    · exact absurd hb hne
  cases p
  · obtain ⟨o, ho, hrest⟩ := (keep_model_pareto_false_iff S' r).mp hfalse
    have hS : keep_model false S r = false :=
      (keep_model_pareto_false_iff S r).mpr ⟨o, hsub o ho, hrest⟩
    rw [hS] at h
    exact Bool.false_ne_true h
  · obtain ⟨o, ho, hrest⟩ := (keep_model_best_false_iff S' r).mp hfalse
    have hS : keep_model true S r = false :=
      (keep_model_best_false_iff S r).mpr ⟨o, hsub o ho, hrest⟩
    rw [hS] at h
    exact Bool.false_ne_true h

lemma save_and_clean_loop_no_events (p o : Bool) (all : List ModelRecord) :
    ∀ (l : List ModelRecord) (disk : List String),
      (∀ r ∈ l, keep_model p all r = true) →
      save_and_clean_loop p o all none l disk = ([], disk) := by
  intro l
  induction l with
  | nil => intro disk _; rfl
  | cons r rest ih =>
    intro disk hk
    simp only [save_and_clean_loop, hk r (List.mem_cons_self r rest), if_true]
    exact ih disk (fun x hx => hk x (List.mem_cons_of_mem r hx))

/-- C9: a non-dry-run cycle run on the keep-set of any candidate set, with no
new candidate, performs no persist and no delete: the surviving set is a fixed
point of classification for both policies. -/
theorem retention_cycle_idempotent (save_best_only : Bool) (T : List ModelRecord) :
    save_and_clean_models save_best_only false (classify_keeps save_best_only T) none =
      ([], (classify_keeps save_best_only T).map (·.filepath)) := by
  unfold save_and_clean_models
  simp only [Option.toList_none, List.append_nil, Option.map_none']
  apply save_and_clean_loop_no_events
  intro r hr
  have hr' : r ∈ classify_keeps save_best_only T :=
    ((List.perm_insertionSort combinedDescRel _).mem_iff).mp hr
  have hkT : keep_model save_best_only T r = true :=
    (List.of_mem_filter hr' :)
  exact keep_model_mono save_best_only (fun o ho => List.mem_of_mem_filter ho) r hkT

/-- C3: two records tied for the maximal `acc_combined` are BOTH classified
discard under the best-only policy (each sees the other through the `>=`
comparison), contradicting the claim that exact ties all survive as keep. -/
theorem tied_best_records_both_discarded :
    keep_model true [⟨"a", 1, 1, 1⟩, ⟨"b", 1, 1, 1⟩] ⟨"a", 1, 1, 1⟩ = false ∧
    keep_model true [⟨"a", 1, 1, 1⟩, ⟨"b", 1, 1, 1⟩] ⟨"b", 1, 1, 1⟩ = false ∧
    (∀ r ∈ ([⟨"a", 1, 1, 1⟩, ⟨"b", 1, 1, 1⟩] : List ModelRecord),
      r.acc_combined ≤ (ModelRecord.mk "a" 1 1 1).acc_combined) := by
  exact ⟨by decide, by decide, by decide⟩

/-- C2: a non-dry-run best-only cycle on a nonempty directory holding two
records tied on `acc_combined` deletes both, ending with ZERO model artifacts
on disk — the directory-never-empty invariant fails on the code. -/
theorem tie_cycle_empties_directory :
    save_and_clean_models true false [⟨"a", 1, 1, 1⟩, ⟨"b", 1, 1, 1⟩] none =
      ([PyEvent.delete "a", PyEvent.delete "b"], []) ∧
    ([⟨"a", 1, 1, 1⟩, ⟨"b", 1, 1, 1⟩] : List ModelRecord).map (·.filepath) ≠ [] := by
  exact ⟨by decide, by decide⟩

/-- C4: under the pareto policy, a record dominated on all three accuracy
axes by a record with a different filepath is classified discard, and a record
is discarded only when such a dominator exists. -/
theorem pareto_discard_characterization (all : List ModelRecord) :
    (∀ A ∈ all, ∀ B, A.filepath ≠ B.filepath →
      B.acc_combined ≤ A.acc_combined → B.acc_train ≤ A.acc_train →
      B.acc_val ≤ A.acc_val →
      (B.acc_combined < A.acc_combined ∨ B.acc_train < A.acc_train ∨
        B.acc_val < A.acc_val) →
      keep_model false all B = false) ∧
    (∀ B, keep_model false all B = false →
      ∃ A ∈ all, A.filepath ≠ B.filepath ∧ B.acc_combined ≤ A.acc_combined ∧
        B.acc_train ≤ A.acc_train ∧ B.acc_val ≤ A.acc_val) := by
  constructor
  · intro A hA B hpath hc ht hv _
    exact (keep_model_pareto_false_iff all B).mpr ⟨A, hA, hpath, hc, ht, hv⟩
  · intro B h
    exact (keep_model_pareto_false_iff all B).mp h

/-- Witness for C4 at a concrete two-record set: the strictly dominated record
is discarded. -/
theorem pareto_discard_characterization_witness :
    (ModelRecord.mk "x" 3 3 3).filepath ≠ (ModelRecord.mk "y" 2 2 2).filepath ∧
    keep_model false [⟨"x", 3, 3, 3⟩, ⟨"y", 2, 2, 2⟩] ⟨"y", 2, 2, 2⟩ = false :=
  ⟨by decide,
    (pareto_discard_characterization [⟨"x", 3, 3, 3⟩, ⟨"y", 2, 2, 2⟩]).1
      ⟨"x", 3, 3, 3⟩ (by simp) ⟨"y", 2, 2, 2⟩ (by decide) (by decide) (by decide)
      (by decide) (Or.inl (by decide))⟩

/-- C8: the stored scores of a new candidate are the raw metrics under
`monitor_metric_mode = "max"` and the `1 - raw` complements under `"min"`,
with the stored combined score equal to the mean of the stored train and val
scores; concretely raw train 0.2 and val 0.3 under `"min"` store
`(0.75, 0.8, 0.7)`. -/
theorem candidate_score_normalization :
    (∀ t v : ℚ, compute_candidate_scores "max" t v = ((t + v) / 2, t, v)) ∧
    (∀ t v : ℚ, compute_candidate_scores "min" t v = (1 - (t + v) / 2, 1 - t, 1 - v) ∧
      1 - (t + v) / 2 = ((1 - t) + (1 - v)) / 2) ∧
    compute_candidate_scores "min" (1/5) (3/10) = (3/4, 4/5, 7/10) := by
  refine ⟨fun t v => rfl, fun t v => ⟨rfl, by ring⟩, ?_⟩
  have h : compute_candidate_scores "min" (1/5) (3/10) =
      (1 - ((1 : ℚ)/5 + 3/10) / 2, 1 - (1 : ℚ)/5, 1 - (3 : ℚ)/10) := rfl
  rw [h]
  norm_num

lemma save_precedes_loop (p : Bool) (all : List ModelRecord) (cand : ModelRecord)
    (isSmall : String → Bool)
    (hinj : ∀ a ∈ all, ∀ b ∈ all, a.filepath = b.filepath → a = b)
    (hcall : cand ∈ all)
    (hkeep : keep_model p all cand = true)
    (hsmall : ∀ r ∈ all, cand.acc_combined ≤ r.acc_combined → r.filepath ≠ cand.filepath →
      isSmall r.filepath = false) :
    ∀ (l : List ModelRecord) (disk : List String),
      l.Pairwise combinedDescRel → (∀ r ∈ l, r ∈ all) → cand ∈ l → cand.filepath ∉ disk →
      saveBeforeDeletes cand.filepath isSmall
        (save_and_clean_loop p false all (some cand.filepath) l disk).1 = true := by
  intro l
  induction l with
  | nil => intro disk _ _ hc _; exact absurd hc (List.not_mem_nil cand)
  | cons r rest ih =>
    intro disk hpw hsub hc hd
    have hpw' := List.pairwise_cons.mp hpw
    by_cases hrc : r = cand
    · subst hrc
      rw [save_and_clean_loop, if_pos hkeep, if_pos ⟨rfl, rfl, hd⟩]
      simp [saveBeforeDeletes]
    · have hrall : r ∈ all := hsub r (List.mem_cons_self r rest)
      have hcrest : cand ∈ rest := by
        rcases List.mem_cons.mp hc with h | h
        · exact absurd h.symm hrc
        · exact h
      have hge : cand.acc_combined ≤ r.acc_combined := hpw'.1 cand hcrest
      have hpath : r.filepath ≠ cand.filepath := fun hp => hrc (hinj r hrall cand hcall hp)
      have hsubr : ∀ x ∈ rest, x ∈ all := fun x hx => hsub x (List.mem_cons_of_mem r hx)
      rw [save_and_clean_loop]
      by_cases hk : keep_model p all r = true
      · rw [if_pos hk, if_neg (fun hcond => hpath hcond.2.1)]
        exact ih disk hpw'.2 hsubr hcrest hd
      · rw [if_neg hk, if_neg (by simp : ¬ (false = true))]
        by_cases hmem : r.filepath ∈ disk
        · rw [if_pos hmem]
          have hsm : isSmall r.filepath = false := hsmall r hrall hge hpath
          simp only [saveBeforeDeletes, hsm, Bool.not_false, Bool.true_and]
          apply ih _ hpw'.2 hsubr hcrest
          intro hmem'
          exact hd (List.mem_of_mem_filter hmem')
        · rw [if_neg hmem]
          exact ih disk hpw'.2 hsubr hcrest hd

/-- C1 (amended): in a non-dry-run cycle whose keep candidate has a path
distinct from every existing record's, the persist of the candidate always
completes before any delete under the best-only policy; under the pareto
policy it completes before any delete of a record whose `acc_combined` is
strictly below the candidate's (a dominated record with `acc_combined` at or
above the candidate's can be deleted first — see the counterexample). -/
theorem save_before_delete_ordering_amended (save_best_only : Bool)
    (existing : List ModelRecord) (cand : ModelRecord)
    (hnodup : ((existing ++ [cand]).map (·.filepath)).Nodup)
    (hkeep : keep_model save_best_only (existing ++ [cand]) cand = true) :
    saveBeforeDeletes cand.filepath (small_for save_best_only (existing ++ [cand]) cand)
      (save_and_clean_models save_best_only false existing (some cand)).1 = true := by
  have hinj : ∀ a ∈ existing ++ [cand], ∀ b ∈ existing ++ [cand],
      a.filepath = b.filepath → a = b :=
    fun a ha b hb h => List.inj_on_of_nodup_map hnodup ha hb h
  have hcall : cand ∈ existing ++ [cand] := List.mem_append_right _ (by simp)
  have hd0 : cand.filepath ∉ existing.map (·.filepath) := by
    rw [List.map_append] at hnodup
    have hdisj := (List.nodup_append.mp hnodup).2.2
    intro hmem
    exact hdisj hmem (by simp)
  have hsmall : ∀ r ∈ existing ++ [cand], cand.acc_combined ≤ r.acc_combined →
      r.filepath ≠ cand.filepath →
      small_for save_best_only (existing ++ [cand]) cand r.filepath = false := by
    intro r hr hge hpath
    cases save_best_only
    · simp only [small_for, Bool.false_eq_true, if_false, pareto_smaller_paths,
        List.any_eq_false]
      intro r' hr'
      simp only [Bool.and_eq_true, beq_iff_eq, decide_eq_true_eq, not_and]
      intro hpe hlt
      have hrr : r' = r := hinj r' hr' r hr hpe
      rw [hrr] at hlt
      exact absurd hge (not_le.mpr hlt)
    · exfalso
      have hf : keep_model true (existing ++ [cand]) cand = false :=
        (keep_model_best_false_iff _ _).mpr ⟨r, hr, hpath, hge⟩
      rw [hf] at hkeep
      exact Bool.false_ne_true hkeep
  unfold save_and_clean_models
  simp only [Option.toList_some, Option.map_some']
  apply save_precedes_loop save_best_only (existing ++ [cand]) cand _ hinj hcall hkeep hsmall
  · exact List.sorted_insertionSort combinedDescRel (existing ++ [cand])
  · intro r hr
    exact ((List.perm_insertionSort combinedDescRel _).mem_iff).mp hr
  · exact ((List.perm_insertionSort combinedDescRel _).mem_iff).mpr hcall
  · exact hd0

/-- C1 counterexample: under the pareto policy, candidate `"c"` is a keep and
record `"b"` (dominated by `"a"`) is a discard, yet the descending
`acc_combined` sort places `"b"` before `"c"`, so the delete of `"b"` executes
BEFORE the save of `"c"` — the save-before-delete claim fails for the pareto
policy. -/
theorem save_before_delete_pareto_counterexample :
    keep_model false [⟨"a", 8, 8, 8⟩, ⟨"b", 7, 7, 7⟩, ⟨"c", 5, 9, 1⟩] ⟨"c", 5, 9, 1⟩ = true ∧
    keep_model false [⟨"a", 8, 8, 8⟩, ⟨"b", 7, 7, 7⟩, ⟨"c", 5, 9, 1⟩] ⟨"b", 7, 7, 7⟩ = false ∧
    (save_and_clean_models false false [⟨"a", 8, 8, 8⟩, ⟨"b", 7, 7, 7⟩]
        (some ⟨"c", 5, 9, 1⟩)).1 = [PyEvent.delete "b", PyEvent.save "c"] ∧
    saveBeforeDeletes "c" (fun _ => true)
      (save_and_clean_models false false [⟨"a", 8, 8, 8⟩, ⟨"b", 7, 7, 7⟩]
        (some ⟨"c", 5, 9, 1⟩)).1 = false := by
  exact ⟨by decide, by decide, by decide, by decide⟩

/-- Witness for the amended C1 theorem at a concrete input: a strictly better
best-only candidate is saved with no earlier delete. -/
theorem save_before_delete_ordering_amended_witness :
    ((([⟨"a", 1, 1, 1⟩] : List ModelRecord) ++ ([⟨"c", 2, 2, 2⟩] : List ModelRecord)).map
      (·.filepath)).Nodup ∧
    keep_model true (([⟨"a", 1, 1, 1⟩] : List ModelRecord) ++ ([⟨"c", 2, 2, 2⟩] :
      List ModelRecord)) ⟨"c", 2, 2, 2⟩ = true ∧
    saveBeforeDeletes "c" (small_for true (([⟨"a", 1, 1, 1⟩] : List ModelRecord) ++
        ([⟨"c", 2, 2, 2⟩] : List ModelRecord)) ⟨"c", 2, 2, 2⟩)
      (save_and_clean_models true false [⟨"a", 1, 1, 1⟩] (some ⟨"c", 2, 2, 2⟩)).1 = true :=
  ⟨by decide, by decide,
    save_before_delete_ordering_amended true [⟨"a", 1, 1, 1⟩] ⟨"c", 2, 2, 2⟩
      (by decide) (by decide)⟩

/-! ## Codec layer lemmas -/

lemma isDigit_ne {c d : Char} (h : c.isDigit = true) (hd : d.isDigit = false) : c ≠ d := by
  intro he
  subst he
  rw [h] at hd
  exact Bool.false_ne_true hd.symm

lemma digitChar_isDigit {k : Nat} (h : k < 10) : (digitChar k).isDigit = true := by
  interval_cases k <;> decide

lemma digitChar_toNat {k : Nat} (h : k < 10) : (digitChar k).toNat - 48 = k := by
  interval_cases k <;> decide

lemma natToStr_all_digit (n : Nat) : ∀ c ∈ natToStr n, c.isDigit = true := by
  induction n using Nat.strong_induction_on with
  | _ n ih =>
    intro c hc
    by_cases h : n < 10
    · rw [natToStr, dif_pos h] at hc
      rw [List.mem_singleton.mp hc]
      exact digitChar_isDigit h
    · rw [natToStr, dif_neg h] at hc
      rcases List.mem_append.mp hc with h1 | h1
      · exact ih (n / 10) (Nat.div_lt_self (by omega) (by omega)) c h1
      · rw [List.mem_singleton.mp h1]
        exact digitChar_isDigit (Nat.mod_lt n (by omega))

lemma natToStr_ne_nil (n : Nat) : natToStr n ≠ [] := by
  rw [natToStr]
  split
  · simp
  · simp

lemma digitsVal_shift (b : Str) :
    ∀ x : Nat, b.foldl (fun a c => 10 * a + (c.toNat - 48)) x =
      x * 10 ^ b.length + digitsVal b := by
  induction b with
  | nil => intro x; simp [digitsVal]
  | cons c t ih =>
    intro x
    have h1 := ih (10 * x + (c.toNat - 48))
    have h2 := ih (10 * 0 + (c.toNat - 48))
    simp only [digitsVal, List.foldl_cons, List.length_cons] at h1 h2 ⊢
    rw [h1, h2, pow_succ]
    ring

lemma digitsVal_append (a b : Str) :
    digitsVal (a ++ b) = digitsVal a * 10 ^ b.length + digitsVal b := by
  simp only [digitsVal, List.foldl_append]
  exact digitsVal_shift b _

lemma digitsVal_cons (c : Char) (s : Str) :
    digitsVal (c :: s) = (c.toNat - 48) * 10 ^ s.length + digitsVal s := by
  have h := digitsVal_shift s (10 * 0 + (c.toNat - 48))
  simp only [digitsVal, List.foldl_cons] at h ⊢
  rw [h]
  ring_nf

lemma digitsVal_natToStr (n : Nat) : digitsVal (natToStr n) = n := by
  induction n using Nat.strong_induction_on with
  | _ n ih =>
    by_cases h : n < 10
    · rw [natToStr, dif_pos h]
      rw [digitsVal_cons]
      simp [digitsVal, digitChar_toNat h]
    · rw [natToStr, dif_neg h]
      rw [digitsVal_append, ih (n / 10) (Nat.div_lt_self (by omega) (by omega))]
      rw [digitsVal_cons]
      simp [digitsVal, digitChar_toNat (Nat.mod_lt n (by omega))]
      omega

lemma natToStr_length_le {n k : Nat} (h : n < 10 ^ k) (hk : 1 ≤ k) :
    (natToStr n).length ≤ k := by
  induction n using Nat.strong_induction_on generalizing k with
  | _ n ih =>
    by_cases h10 : n < 10
    · rw [natToStr, dif_pos h10]
      simpa using hk
    · rw [natToStr, dif_neg h10]
      have hk2 : 2 ≤ k := by
        by_contra hlt
        have : k = 1 := by omega
        subst this
        simp at h
        omega
      have hdiv : n / 10 < 10 ^ (k - 1) := by
        rw [Nat.div_lt_iff_lt_mul (by omega)]
        calc n < 10 ^ k := h
        _ = 10 ^ (k - 1) * 10 := by
          rw [← pow_succ]
          congr 1
          omega
      have := ih (n / 10) (Nat.div_lt_self (by omega) (by omega)) hdiv (by omega)
      simp only [List.length_append, List.length_singleton]
      omega

lemma digitsVal_replicate_zero (j : Nat) : digitsVal (List.replicate j '0') = 0 := by
  induction j with
  | zero => rfl
  | succ j ih =>
    have h0 : '0'.toNat - 48 = 0 := rfl
    rw [List.replicate_succ, digitsVal_cons, ih, h0]
    ring

lemma pad5_spec {m : Nat} (h : m < 100000) :
    (∀ c ∈ pad5 m, c.isDigit = true) ∧ (pad5 m).length = 5 ∧ digitsVal (pad5 m) = m := by
  have hlen : (natToStr m).length ≤ 5 := natToStr_length_le (by omega) (by omega)
  refine ⟨?_, ?_, ?_⟩
  · intro c hc
    rcases List.mem_append.mp hc with h1 | h1
    · rw [List.eq_of_mem_replicate h1]
      decide
    · exact natToStr_all_digit m c h1
  · simp only [pad5, List.length_append, List.length_replicate]
    omega
  · rw [pad5, digitsVal_append, digitsVal_replicate_zero, digitsVal_natToStr]
    simp

lemma pyIsDigit_iff (s : Str) : pyIsDigit s = true ↔ s ≠ [] ∧ ∀ c ∈ s, c.isDigit = true := by
  simp [pyIsDigit, List.isEmpty_iff, List.all_eq_true]

lemma pyInt?_digits (s : Str) (hne : s ≠ []) (hd : ∀ c ∈ s, c.isDigit = true) :
    pyInt? s = some ((digitsVal s : Int)) := by
  match s, hne with
  | c :: t, _ =>
    have hc := hd c (List.mem_cons_self c t)
    rw [pyInt?]
    rw [if_neg (isDigit_ne hc (by decide)), if_neg (isDigit_ne hc (by decide))]
    rw [if_pos ((pyIsDigit_iff _).mpr ⟨by simp, hd⟩)]

lemma pad2I_digits {n : Int} (h : 0 ≤ n) :
    (∀ c ∈ pad2I n, c.isDigit = true) ∧ pad2I n ≠ [] ∧ digitsVal (pad2I n) = n.toNat := by
  by_cases hn : n < 10
  · rw [pad2I, if_pos ⟨h, hn⟩]
    refine ⟨?_, by simp, ?_⟩
    · intro c hc
      rcases List.mem_cons.mp hc with rfl | h1
      · decide
      · exact natToStr_all_digit _ c h1
    · have h0 : '0'.toNat - 48 = 0 := rfl
      rw [digitsVal_cons, digitsVal_natToStr, h0]
      ring
  · rw [pad2I, if_neg (fun hcon => hn hcon.2), intToStr, if_neg (by omega)]
    exact ⟨natToStr_all_digit _, natToStr_ne_nil _, digitsVal_natToStr _⟩

lemma pyInt?_pad2I {n : Int} (h : 0 ≤ n) : pyInt? (pad2I n) = some n := by
  obtain ⟨hd, hne, hval⟩ := pad2I_digits h
  rw [pyInt?_digits _ hne hd, hval]
  congr 1
  omega

lemma intToStr_digits {n : Int} (h : 0 ≤ n) :
    (∀ c ∈ intToStr n, c.isDigit = true) ∧ intToStr n ≠ [] ∧
      digitsVal (intToStr n) = n.toNat := by
  rw [intToStr, if_neg (by omega)]
  exact ⟨natToStr_all_digit _, natToStr_ne_nil _, digitsVal_natToStr _⟩

lemma pyInt?_intToStr {n : Int} (h : 0 ≤ n) : pyInt? (intToStr n) = some n := by
  obtain ⟨hd, hne, hval⟩ := intToStr_digits h
  rw [pyInt?_digits _ hne hd, hval]
  congr 1
  omega

lemma takeToDot_append {a : Str} (h : ∀ c ∈ a, c ≠ '.') (b : Str) :
    takeToDot (a ++ '.' :: b) = a := by
  induction a with
  | nil => simp [takeToDot]
  | cons x t ih =>
    rw [List.cons_append, takeToDot, if_neg (h x (List.mem_cons_self x t))]
    rw [ih (fun c hc => h c (List.mem_cons_of_mem x hc))]

lemma dropToDot_append {a : Str} (h : ∀ c ∈ a, c ≠ '.') (b : Str) :
    dropToDot (a ++ '.' :: b) = '.' :: b := by
  induction a with
  | nil => simp [dropToDot]
  | cons x t ih =>
    rw [List.cons_append, dropToDot, if_neg (h x (List.mem_cons_self x t))]
    exact ih (fun c hc => h c (List.mem_cons_of_mem x hc))

lemma dropToDot_of_no_dot {a : Str} (h : ∀ c ∈ a, c ≠ '.') : dropToDot a = [] := by
  induction a with
  | nil => rfl
  | cons x t ih =>
    rw [dropToDot, if_neg (h x (List.mem_cons_self x t))]
    exact ih (fun c hc => h c (List.mem_cons_of_mem x hc))

lemma takeToDot_of_no_dot {a : Str} (h : ∀ c ∈ a, c ≠ '.') : takeToDot a = a := by
  induction a with
  | nil => rfl
  | cons x t ih =>
    rw [takeToDot, if_neg (h x (List.mem_cons_self x t))]
    rw [ih (fun c hc => h c (List.mem_cons_of_mem x hc))]

lemma splitOnChar_ne_nil (c : Char) (s : Str) : splitOnChar c s ≠ [] := by
  induction s with
  | nil => simp [splitOnChar]
  | cons x rest ih =>
    rw [splitOnChar]
    by_cases hx : x = c
    · rw [if_pos hx]; simp
    · rw [if_neg hx]
      rcases hsp : splitOnChar c rest with _ | ⟨h, t⟩
      · exact absurd hsp ih
      · simp

lemma splitOnChar_sep (c : Char) (a : Str) :
    ∀ b : Str, splitOnChar c (a ++ c :: b) = splitOnChar c a ++ splitOnChar c b := by
  induction a with
  | nil => intro b; simp [splitOnChar]
  | cons x a' ih =>
    intro b
    by_cases hx : x = c
    · subst hx
      rw [List.cons_append, splitOnChar, if_pos rfl, ih]
      rw [splitOnChar, if_pos rfl]
      rfl
    · rw [List.cons_append, splitOnChar, if_neg hx, ih]
      conv_rhs => rw [splitOnChar, if_neg hx]
      rcases hsp : splitOnChar c a' with _ | ⟨h, t⟩
      · exact absurd hsp (splitOnChar_ne_nil c a')
      · simp

lemma splitOnChar_of_no_sep {c : Char} {s : Str} (h : ∀ x ∈ s, x ≠ c) :
    splitOnChar c s = [s] := by
  induction s with
  | nil => rfl
  | cons x rest ih =>
    rw [splitOnChar, if_neg (h x (List.mem_cons_self x rest))]
    rw [ih (fun y hy => h y (List.mem_cons_of_mem x hy))]

lemma pyJoin_splitOnChar (c : Char) (s : Str) : pyJoin [c] (splitOnChar c s) = s := by
  induction s with
  | nil => rfl
  | cons x rest ih =>
    rw [splitOnChar]
    by_cases hx : x = c
    · subst hx
      rw [if_pos rfl]
      rcases hsp : splitOnChar x rest with _ | ⟨h, t⟩
      · exact absurd hsp (splitOnChar_ne_nil x rest)
      · rw [hsp] at ih
        rw [pyJoin, ih]
        rfl
    · rw [if_neg hx]
      rcases hsp : splitOnChar c rest with _ | ⟨h, t⟩
      · exact absurd hsp (splitOnChar_ne_nil c rest)
      · rw [hsp] at ih
        cases t with
        | nil =>
          rw [pyJoin] at ih ⊢
          rw [ih]
        | cons t0 ts =>
          rw [pyJoin] at ih ⊢
          rw [← ih]
          simp

lemma pyEndsWith_append (a t : Str) : pyEndsWith (a ++ t) t = true := by
  simp [pyEndsWith, List.suffix_append]

lemma splitExt_append {stem ext : Str} (hs : stem ≠ []) (he : ext ≠ [])
    (hnd : ∀ c ∈ ext, c ≠ '.') : splitExt (stem ++ '.' :: ext) = (stem, '.' :: ext) := by
  have hrev : (stem ++ '.' :: ext).reverse = ext.reverse ++ '.' :: stem.reverse := by
    simp
  have hnd' : ∀ c ∈ ext.reverse, c ≠ '.' := fun c hc => hnd c (List.mem_reverse.mp hc)
  unfold splitExt
  rw [hrev, dropToDot_append hnd', takeToDot_append hnd']
  simp [hs, he]

lemma acc5Str_parts (k : Int) :
    ∀ c ∈ acc5Str k, c.isDigit = true ∨ c = '-' ∨ c = '.' := by
  intro c hc
  rw [acc5Str] at hc
  rcases List.mem_append.mp hc with h1 | h1
  · rcases List.mem_append.mp h1 with h2 | h2
    · right; left
      by_cases hk : k < 0
      · rw [if_pos hk] at h2
        exact List.mem_singleton.mp h2
      · rw [if_neg hk] at h2
        exact absurd h2 (List.not_mem_nil c)
    · exact Or.inl (natToStr_all_digit _ c h2)
  · rcases List.mem_cons.mp h1 with rfl | h3
    · right; right; rfl
    · have hm : k.natAbs % 100000 < 100000 := Nat.mod_lt _ (by omega)
      exact Or.inl ((pad5_spec hm).1 c h3)

lemma acc5Str_no_underscore (k : Int) : ∀ c ∈ acc5Str k, c ≠ '_' := by
  intro c hc
  rcases acc5Str_parts k c hc with h | h | h
  · exact isDigit_ne h (by decide)
  · rw [h]; decide
  · rw [h]; decide

lemma pyFloat?_cons (c : Char) (t : Str) :
    pyFloat? (c :: t) = if c = '-' then (pyFloatCore t).map (fun q => -q)
      else if c = '+' then pyFloatCore t else pyFloatCore (c :: t) := rfl

lemma pyFloatCore_digits_dot (ipart fpart : Str) (hip : ∀ c ∈ ipart, c.isDigit = true)
    (hfp : ∀ c ∈ fpart, c.isDigit = true) (hne : ipart ≠ []) :
    pyFloatCore (ipart ++ '.' :: fpart) =
      some ((digitsVal ipart : ℚ) + (digitsVal fpart : ℚ) / (10 : ℚ) ^ fpart.length) := by
  have hnd : ∀ x ∈ ipart, x ≠ '.' := fun x hx => isDigit_ne (hip x hx) (by decide)
  have hval : (ipart.isEmpty && fpart.isEmpty) = false := by
    cases ipart
    · exact absurd rfl hne
    · rfl
  have hcond : (ipart.all Char.isDigit && fpart.all Char.isDigit &&
      !(ipart.isEmpty && fpart.isEmpty)) = true := by
    rw [hval]
    simp only [Bool.and_true, Bool.not_false, Bool.and_eq_true, List.all_eq_true]
    exact ⟨hip, hfp⟩
  unfold pyFloatCore
  rw [takeToDot_append hnd, dropToDot_append hnd]
  show (if (ipart.all Char.isDigit && fpart.all Char.isDigit &&
      !(ipart.isEmpty && fpart.isEmpty)) = true then
    some ((digitsVal ipart : ℚ) + (digitsVal fpart : ℚ) / (10 : ℚ) ^ fpart.length)
    else none) = _
  rw [if_pos hcond]

lemma pyFloat?_acc5Str (k : Int) : pyFloat? (acc5Str k) = some ((k : ℚ) / 100000) := by
  have hm : k.natAbs % 100000 < 100000 := Nat.mod_lt _ (by omega)
  obtain ⟨hp5d, hp5l, hp5v⟩ := pad5_spec hm
  have hcore : pyFloatCore (natToStr (k.natAbs / 100000) ++ '.' :: pad5 (k.natAbs % 100000)) =
      some ((k.natAbs : ℚ) / 100000) := by
    rw [pyFloatCore_digits_dot _ _ (natToStr_all_digit _) hp5d (natToStr_ne_nil _)]
    congr 1
    rw [digitsVal_natToStr, hp5v, hp5l]
    have h10 : ((10 : ℚ)) ^ (5 : ℕ) = 100000 := by norm_num
    rw [h10]
    have hqr : ((k.natAbs : ℚ)) =
        100000 * ((k.natAbs / 100000 : Nat) : ℚ) + ((k.natAbs % 100000 : Nat) : ℚ) := by
      exact_mod_cast (Nat.div_add_mod k.natAbs 100000).symm
    rw [hqr]
    field_simp
    ring
  by_cases hk : k < 0
  · rw [acc5Str, if_pos hk, List.singleton_append, List.cons_append, pyFloat?_cons]
    rw [if_pos rfl, hcore]
    simp only [Option.map_some']
    congr 1
    have h1 : (k.natAbs : ℤ) = -k := Int.ofNat_natAbs_of_nonpos (by omega)
    have h2 : ((k.natAbs : ℚ)) = ((-k : ℤ) : ℚ) := by
      rw [← h1]
      exact (Int.cast_natCast _).symm
    rw [h2]
    push_cast
    ring
  · rw [acc5Str, if_neg hk, List.nil_append]
    obtain ⟨c, t, hct⟩ : ∃ c t, natToStr (k.natAbs / 100000) = c :: t := by
      rcases hn : natToStr (k.natAbs / 100000) with _ | ⟨c, t⟩
      · exact absurd hn (natToStr_ne_nil _)
      · exact ⟨c, t, rfl⟩
    have hc : c.isDigit = true := by
      have := natToStr_all_digit (k.natAbs / 100000) c
      rw [hct] at this
      exact this (List.mem_cons_self c t)
    rw [hct, List.cons_append, pyFloat?_cons]
    rw [if_neg (isDigit_ne hc (by decide)), if_neg (isDigit_ne hc (by decide))]
    rw [← List.cons_append, ← hct, hcore]
    congr 1
    have h1 : (k.natAbs : ℤ) = k := Int.natAbs_of_nonneg (by omega)
    have h2 : ((k.natAbs : ℚ)) = ((k : ℤ) : ℚ) := by
      rw [← h1]
      exact (Int.cast_natCast _).symm
    rw [h2]

lemma split_pieces (c : Char) :
    ∀ (ps : List Str) (p : Str), (∀ x ∈ p, x ≠ c) → (∀ q ∈ ps, ∀ x ∈ q, x ≠ c) →
      splitOnChar c (ps.foldr (fun a b => a ++ c :: b) p) = ps ++ [p] := by
  intro ps
  induction ps with
  | nil =>
    intro p hp _
    simpa using splitOnChar_of_no_sep hp
  | cons q ps ih =>
    intro p hp hqs
    simp only [List.foldr_cons]
    rw [splitOnChar_sep, splitOnChar_of_no_sep (hqs q (List.mem_cons_self q ps))]
    rw [ih p hp (fun x hx => hqs x (List.mem_cons_of_mem q hx))]
    rfl

lemma parse_hyperparams_of_pos {hv : Int} (hpos : 0 < hv) (arch : Str) :
    parse_hyperparams (arch ++ '+' :: pad2I hv) = (hv, arch) := by
  obtain ⟨hd, hne, hval⟩ := pad2I_digits (le_of_lt hpos)
  have hnosep : ∀ x ∈ pad2I hv, x ≠ '+' := fun x hx => isDigit_ne (hd x hx) (by decide)
  unfold parse_hyperparams
  rw [splitOnChar_sep, splitOnChar_of_no_sep hnosep]
  simp only [List.getLastD_concat, List.dropLast_concat]
  rw [if_pos ((pyIsDigit_iff _).mpr ⟨hne, hd⟩)]
  rw [pyJoin_splitOnChar, hval]
  congr 1
  omega

lemma parse_hyperparams_of_zero (arch : Str)
    (harch2 : pyIsDigit ((splitOnChar '+' arch).getLastD []) = false) :
    parse_hyperparams arch = (0, arch) := by
  unfold parse_hyperparams
  rw [if_neg]
  rw [harch2]
  exact Bool.false_ne_true

lemma exc_bind_error {α β : Type} (e : PyExc) (f : α → Except PyExc β) :
    (Except.error e >>= f) = Except.error e := rfl

lemma exc_bind_ok {α β : Type} (a : α) (f : α → Except PyExc β) :
    (Except.ok a >>= f) = f a := rfl

lemma getD_getElem? {l : List Str} {i : Nat} (h : i < l.length) :
    l[i]? = some (l.getD i []) := by
  cases hx : l[i]? with
  | none =>
    rw [List.getElem?_eq_none_iff] at hx
    omega
  | some x => simp [List.getD, hx]

lemma getFieldE_err {pv : List Str} {i : Nat} (h : pv.length ≤ i) :
    getFieldE pv i = Except.error PyExc.indexError := by
  unfold getFieldE
  rw [List.getElem?_eq_none h]

lemma getFieldE_ok {pv : List Str} {i : Nat} (h : i < pv.length) :
    getFieldE pv i = Except.ok (pv.getD i []) := by
  unfold getFieldE
  rw [getD_getElem? h]

lemma pyFloatE_of_some {s : Str} {q : ℚ} (h : pyFloat? s = some q) :
    pyFloatE s = Except.ok q := by
  unfold pyFloatE
  rw [h]

lemma pyIntE_of_some {s : Str} {n : Int} (h : pyInt? s = some n) :
    pyIntE s = Except.ok n := by
  unfold pyIntE
  rw [h]

lemma parse_accuracies_short {pv : List Str} (h : pv.length ≤ 3) :
    parse_accuracies pv = Except.ok (0, 0, 0, 0) := by
  unfold parse_accuracies
  rw [if_neg (by omega)]

lemma parse_accuracies_long {pv : List Str} (h7 : 7 ≤ pv.length)
    {q1 q2 q3 : ℚ} {ep : Int}
    (h3 : pyFloat? (pv.getD 3 []) = some q1) (h4 : pyFloat? (pv.getD 4 []) = some q2)
    (h5 : pyFloat? (pv.getD 5 []) = some q3) (h6 : pyInt? (pv.getD 6 []) = some ep) :
    parse_accuracies pv = Except.ok (q1, q2, q3, ep) := by
  unfold parse_accuracies
  rw [if_pos (by omega)]
  rw [pyFloatE_of_some h3, getFieldE_ok (show 4 < pv.length by omega)]
  simp only [exc_bind_ok]
  rw [pyFloatE_of_some h4, getFieldE_ok (show 5 < pv.length by omega)]
  simp only [exc_bind_ok]
  rw [pyFloatE_of_some h5, getFieldE_ok (show 6 < pv.length by omega)]
  simp only [exc_bind_ok]
  rw [pyIntE_of_some h6]
  simp only [exc_bind_ok]
  rfl

lemma parse_accuracies_mid {pv : List Str} (h4 : 4 ≤ pv.length) (h6 : pv.length ≤ 6) :
    ∃ e, parse_accuracies pv = Except.error e := by
  unfold parse_accuracies
  rw [if_pos (by omega)]
  cases hF3 : pyFloatE (pv.getD 3 []) with
  | error e => exact ⟨e, by rw [exc_bind_error]⟩
  | ok q1 =>
    simp only [exc_bind_ok]
    by_cases hl4 : pv.length ≤ 4
    · rw [getFieldE_err hl4]
      exact ⟨PyExc.indexError, by rw [exc_bind_error]⟩
    · rw [getFieldE_ok (show 4 < pv.length by omega)]
      simp only [exc_bind_ok]
      cases hF4 : pyFloatE (pv.getD 4 []) with
      | error e => exact ⟨e, by rw [exc_bind_error]⟩
      | ok q2 =>
        simp only [exc_bind_ok]
        by_cases hl5 : pv.length ≤ 5
        · rw [getFieldE_err hl5]
          exact ⟨PyExc.indexError, by rw [exc_bind_error]⟩
        · rw [getFieldE_ok (show 5 < pv.length by omega)]
          simp only [exc_bind_ok]
          cases hF5 : pyFloatE (pv.getD 5 []) with
          | error e => exact ⟨e, by rw [exc_bind_error]⟩
          | ok q3 =>
            simp only [exc_bind_ok]
            rw [getFieldE_err (show pv.length ≤ 6 by omega)]
            exact ⟨PyExc.indexError, by rw [exc_bind_error]⟩

lemma parse_model_filename_of_pieces (p : PyPath) (S save_format : Str)
    (subject V K A1 A2 A3 E : Str) (tail : List Str)
    (hfc : parse_format_check p = some (S, save_format))
    (hsplit : splitOnChar '_' S = subject :: V :: K :: A1 :: A2 :: A3 :: E :: tail)
    {tv : Int} (hV : pyInt? V = some tv)
    {q1 q2 q3 : ℚ} (hA1 : pyFloat? A1 = some q1) (hA2 : pyFloat? A2 = some q2)
    (hA3 : pyFloat? A3 = some q3)
    {ep : Int} (hE : pyInt? E = some ep) :
    parse_model_filename p = Except.ok (some
      { filepath := p
        filename := S
        basefilename := format_model_basefilename subject tv (parse_hyperparams K).2
          (parse_hyperparams K).1
        segment_subject := subject
        traindata_version := tv
        model_architecture := (parse_hyperparams K).2
        hyperparams_version := (parse_hyperparams K).1
        acc_combined := q1
        acc_train := q2
        acc_val := q3
        epoch := ep
        save_format := save_format }) := by
  have hlen : 3 < (subject :: V :: K :: A1 :: A2 :: A3 :: E :: tail).length := by
    simp only [List.length_cons]
    omega
  have e3 : (subject :: V :: K :: A1 :: A2 :: A3 :: E :: tail).getD 3 [] = A1 := by
    simp [List.getD, List.getElem?_cons_succ, List.getElem?_cons_zero]
  have e4 : (subject :: V :: K :: A1 :: A2 :: A3 :: E :: tail).getD 4 [] = A2 := by
    simp [List.getD, List.getElem?_cons_succ, List.getElem?_cons_zero]
  have e5 : (subject :: V :: K :: A1 :: A2 :: A3 :: E :: tail).getD 5 [] = A3 := by
    simp [List.getD, List.getElem?_cons_succ, List.getElem?_cons_zero]
  have e6 : (subject :: V :: K :: A1 :: A2 :: A3 :: E :: tail).getD 6 [] = E := by
    simp [List.getD, List.getElem?_cons_succ, List.getElem?_cons_zero]
  have hacc : parse_accuracies (subject :: V :: K :: A1 :: A2 :: A3 :: E :: tail) =
      Except.ok (q1, q2, q3, ep) :=
    parse_accuracies_long (by simp only [List.length_cons]; omega)
      (by rw [e3]; exact hA1) (by rw [e4]; exact hA2) (by rw [e5]; exact hA3)
      (by rw [e6]; exact hE)
  unfold parse_model_filename
  rw [hfc]
  simp only [hsplit, List.headD_cons, List.getElem?_cons_succ, List.getElem?_cons_zero,
    hV, hacc]

/-- C5: decoding is a left inverse of encoding: for well-formed inputs
(no `'_'` in the subject or architecture, no digits-only final `'+'` piece in
the architecture itself, non-negative versions and epoch, accuracies given as
exact multiples of `10^-5`, save format `h5` or `tf`), parsing the encoded
filename recovers every identity and metric field exactly. -/
theorem parse_format_model_filename_roundtrip
    (subject arch : Str) (tv hv a_c a_t a_v ep : Int) (sf : Str)
    (hsub : ∀ x ∈ subject, x ≠ '_')
    (harch : ∀ x ∈ arch, x ≠ '_')
    (harch2 : pyIsDigit ((splitOnChar '+' arch).getLastD []) = false)
    (htv : 0 ≤ tv) (hhv : 0 ≤ hv) (hep : 0 ≤ ep)
    (hsf : sf = ['h', '5'] ∨ sf = ['t', 'f']) :
    ∃ info, parse_model_filename
        ⟨format_model_filename subject tv arch hv a_t a_v a_c ep sf, sf == ['t', 'f']⟩ =
        Except.ok (some info) ∧
      info.segment_subject = subject ∧ info.traindata_version = tv ∧
      info.model_architecture = arch ∧ info.hyperparams_version = hv ∧
      info.acc_combined = (a_c : ℚ) / 100000 ∧ info.acc_train = (a_t : ℚ) / 100000 ∧
      info.acc_val = (a_v : ℚ) / 100000 ∧ info.epoch = ep ∧ info.save_format = sf := by
  obtain ⟨K, hKdef⟩ : ∃ K : Str, K = arch ++ (if 0 < hv then '+' :: pad2I hv else []) :=
    ⟨_, rfl⟩
  have hKund : ∀ x ∈ K, x ≠ '_' := by
    intro x hx
    rw [hKdef] at hx
    rcases List.mem_append.mp hx with h | h
    · exact harch x h
    · by_cases hpos : 0 < hv
      · rw [if_pos hpos] at h
        rcases List.mem_cons.mp h with rfl | h2
        · decide
        · exact isDigit_ne ((pad2I_digits (le_of_lt hpos)).1 x h2) (by decide)
      · rw [if_neg hpos] at h
        exact absurd h (List.not_mem_nil x)
  have hKparse : parse_hyperparams K = (hv, arch) := by
    by_cases hpos : 0 < hv
    · rw [hKdef, if_pos hpos]
      exact parse_hyperparams_of_pos hpos arch
    · have h0 : hv = 0 := by omega
      rw [hKdef, if_neg hpos, List.append_nil, h0]
      exact parse_hyperparams_of_zero arch harch2
  have hVund : ∀ x ∈ pad2I tv, x ≠ '_' :=
    fun x hx => isDigit_ne ((pad2I_digits htv).1 x hx) (by decide)
  have hEund : ∀ x ∈ intToStr ep, x ≠ '_' :=
    fun x hx => isDigit_ne ((intToStr_digits hep).1 x hx) (by decide)
  have hKbase : ∀ sfv : Str, format_model_filename subject tv arch hv a_t a_v a_c ep sfv =
      ((((subject ++ '_' :: pad2I tv ++ '_' :: arch ++
          (if 0 < hv then '+' :: pad2I hv else [])) ++
        '_' :: acc5Str a_c) ++ '_' :: acc5Str a_t) ++ '_' :: acc5Str a_v) ++
        '_' :: intToStr ep ++
        (if sfv = ['t', 'f'] then tfMark else ['.', 'h', 'd', 'f', '5']) := by
    intro sfv
    unfold format_model_filename format_model_basefilename
    simp [List.append_assoc]
  rcases hsf with rfl | rfl
  · -- h5: the stem is the whole name without the ".hdf5" extension
    obtain ⟨S, hSdef⟩ : ∃ S : Str, S = subject ++ '_' :: (pad2I tv ++ '_' :: (K ++ '_' ::
        (acc5Str a_c ++ '_' :: (acc5Str a_t ++ '_' :: (acc5Str a_v ++ '_' :: intToStr ep))))) :=
      ⟨_, rfl⟩
    have hSne : S ≠ [] := by
      rw [hSdef]
      simp [List.append_eq_nil]
    have hname : format_model_filename subject tv arch hv a_t a_v a_c ep ['h', '5'] =
        S ++ '.' :: ['h', 'd', 'f', '5'] := by
      rw [hKbase, hSdef, hKdef]
      rw [if_neg (by decide : ¬ ((['h', '5'] : Str) = ['t', 'f']))]
      simp [List.append_assoc]
    have hsplitS : splitOnChar '_' S =
        [subject, pad2I tv, K, acc5Str a_c, acc5Str a_t, acc5Str a_v, intToStr ep] := by
      rw [hSdef]
      have h7 := split_pieces '_'
        [subject, pad2I tv, K, acc5Str a_c, acc5Str a_t, acc5Str a_v] (intToStr ep) hEund ?_
      · simpa using h7
      · intro q hq
        simp only [List.mem_cons, List.not_mem_nil, or_false] at hq
        rcases hq with rfl | rfl | rfl | rfl | rfl | rfl
        · exact hsub
        · exact hVund
        · exact hKund
        · exact acc5Str_no_underscore a_c
        · exact acc5Str_no_underscore a_t
        · exact acc5Str_no_underscore a_v
    have hfc : parse_format_check
        ⟨format_model_filename subject tv arch hv a_t a_v a_c ep ['h', '5'],
          (['h', '5'] : Str) == ['t', 'f']⟩ = some (S, ['h', '5']) := by
      unfold parse_format_check
      simp only [hname, show ((['h', '5'] : Str) == ['t', 'f']) = false from rfl,
        Bool.false_eq_true, if_false]
      rw [splitExt_append hSne (by decide) (by decide)]
      rw [if_pos (Or.inr rfl)]
    have hp := parse_model_filename_of_pieces
      ⟨format_model_filename subject tv arch hv a_t a_v a_c ep ['h', '5'],
        (['h', '5'] : Str) == ['t', 'f']⟩
      S ['h', '5'] subject (pad2I tv) K (acc5Str a_c) (acc5Str a_t) (acc5Str a_v)
      (intToStr ep) [] hfc (by simpa using hsplitS) (pyInt?_pad2I htv)
      (pyFloat?_acc5Str a_c) (pyFloat?_acc5Str a_t) (pyFloat?_acc5Str a_v)
      (pyInt?_intToStr hep)
    refine ⟨_, hp, rfl, rfl, ?_, ?_, rfl, rfl, rfl, rfl, rfl⟩
    · rw [hKparse]
    · rw [hKparse]
  · -- tf: the whole directory name (ending in "_tf") is split
    obtain ⟨S, hSdef⟩ : ∃ S : Str, S = subject ++ '_' :: (pad2I tv ++ '_' :: (K ++ '_' ::
        (acc5Str a_c ++ '_' :: (acc5Str a_t ++ '_' :: (acc5Str a_v ++ '_' ::
          (intToStr ep ++ '_' :: ['t', 'f'])))))) := ⟨_, rfl⟩
    have hname : format_model_filename subject tv arch hv a_t a_v a_c ep ['t', 'f'] = S := by
      rw [hKbase, hSdef, hKdef]
      rw [if_pos rfl]
      show _ = _ ++ '_' :: (_ ++ '_' :: (_ ++ '_' :: (_ ++ '_' :: (_ ++ '_' ::
        (_ ++ '_' :: (_ ++ ('_' :: ['t', 'f'])))))))
      simp [List.append_assoc, tfMark]
    have hends : pyEndsWith (format_model_filename subject tv arch hv a_t a_v a_c ep
        ['t', 'f']) tfMark = true := by
      rw [hKbase, if_pos rfl]
      exact pyEndsWith_append _ _
    have hfc : parse_format_check
        ⟨format_model_filename subject tv arch hv a_t a_v a_c ep ['t', 'f'],
          (['t', 'f'] : Str) == ['t', 'f']⟩ = some (S, ['t', 'f']) := by
      have hendsS : pyEndsWith S tfMark = true := hname ▸ hends
      unfold parse_format_check
      simp only [show ((['t', 'f'] : Str) == ['t', 'f']) = true from rfl, if_true, hname,
        hendsS]
    have hsplitS : splitOnChar '_' S = [subject, pad2I tv, K, acc5Str a_c, acc5Str a_t,
        acc5Str a_v, intToStr ep, ['t', 'f']] := by
      rw [hSdef]
      have h8 := split_pieces '_'
        [subject, pad2I tv, K, acc5Str a_c, acc5Str a_t, acc5Str a_v, intToStr ep]
        ['t', 'f'] (by decide) ?_
      · simpa using h8
      · intro q hq
        simp only [List.mem_cons, List.not_mem_nil, or_false] at hq
        rcases hq with rfl | rfl | rfl | rfl | rfl | rfl | rfl
        · exact hsub
        · exact hVund
        · exact hKund
        · exact acc5Str_no_underscore a_c
        · exact acc5Str_no_underscore a_t
        · exact acc5Str_no_underscore a_v
        · exact hEund
    have hp := parse_model_filename_of_pieces
      ⟨format_model_filename subject tv arch hv a_t a_v a_c ep ['t', 'f'],
        (['t', 'f'] : Str) == ['t', 'f']⟩
      S ['t', 'f'] subject (pad2I tv) K (acc5Str a_c) (acc5Str a_t) (acc5Str a_v)
      (intToStr ep) [['t', 'f']] hfc (by simpa using hsplitS) (pyInt?_pad2I htv)
      (pyFloat?_acc5Str a_c) (pyFloat?_acc5Str a_t) (pyFloat?_acc5Str a_v)
      (pyInt?_intToStr hep)
    refine ⟨_, hp, rfl, rfl, ?_, ?_, rfl, rfl, rfl, rfl, rfl⟩
    · rw [hKparse]
    · rw [hKparse]

/-- Witness for C5: the concrete filename
`roads_01_unet+03_0.80000_0.79000_0.81000_5.hdf5` round-trips. -/
theorem parse_format_model_filename_roundtrip_witness :
    (∀ x ∈ ("roads".toList : Str), x ≠ '_') ∧
    (∀ x ∈ ("unet".toList : Str), x ≠ '_') ∧
    pyIsDigit ((splitOnChar '+' "unet".toList).getLastD []) = false ∧
    (∃ info, parse_model_filename
        ⟨format_model_filename "roads".toList 1 "unet".toList 3 79000 81000 80000 5
            ['h', '5'], (['h', '5'] : Str) == ['t', 'f']⟩ = Except.ok (some info) ∧
      info.segment_subject = "roads".toList ∧ info.traindata_version = 1 ∧
      info.model_architecture = "unet".toList ∧ info.hyperparams_version = 3 ∧
      info.acc_combined = ((80000 : ℤ) : ℚ) / 100000 ∧
      info.acc_train = ((79000 : ℤ) : ℚ) / 100000 ∧
      info.acc_val = ((81000 : ℤ) : ℚ) / 100000 ∧ info.epoch = 5 ∧
      info.save_format = ['h', '5']) :=
  ⟨by decide, by decide, by decide,
    parse_format_model_filename_roundtrip "roads".toList "unet".toList 1 3 80000 79000 81000
      5 ['h', '5'] (by decide) (by decide) (by decide) (by decide) (by decide) (by decide)
      (Or.inl rfl)⟩

lemma parse_model_filename_badint (p : PyPath) (S save_format : Str)
    (hfc : parse_format_check p = some (S, save_format))
    {s1 : Str} (hs1 : (splitOnChar '_' S)[1]? = some s1)
    (hbad : pyInt? s1 = none) :
    parse_model_filename p = Except.error PyExc.valueError := by
  unfold parse_model_filename
  rw [hfc]
  simp only [hs1, hbad]

lemma parse_model_filename_ok (p : PyPath) (S save_format : Str)
    (hfc : parse_format_check p = some (S, save_format))
    {s1 : Str} (hs1 : (splitOnChar '_' S)[1]? = some s1)
    {tv : Int} (hint : pyInt? s1 = some tv)
    {mti : Str} (hs2 : (splitOnChar '_' S)[2]? = some mti) :
    parse_model_filename p =
      match parse_accuracies (splitOnChar '_' S) with
      | Except.error e => Except.error e
      | Except.ok (q1, q2, q3, ep) => Except.ok (some
        { filepath := p
          filename := S
          basefilename := format_model_basefilename ((splitOnChar '_' S).headD []) tv
            (parse_hyperparams mti).2 (parse_hyperparams mti).1
          segment_subject := (splitOnChar '_' S).headD []
          traindata_version := tv
          model_architecture := (parse_hyperparams mti).2
          hyperparams_version := (parse_hyperparams mti).1
          acc_combined := q1
          acc_train := q2
          acc_val := q3
          epoch := ep
          save_format := save_format }) := by
  unfold parse_model_filename
  rw [hfc]
  simp only [hs1, hint, hs2]

/-- C6 (amended): for an accepted path, the degraded all-zero decode happens
exactly for a 3-field stem (given an integer version field); a stem with 4, 5
or 6 fields makes the decoder raise an uncaught exception (`IndexError` or
`ValueError`) instead of a degraded decode, because the source guards the
accuracy block with `len > 3` rather than `len >= 7`; with at least 7 fields
the accuracies and epoch are read from fields 3..6. -/
theorem segment_count_decode_amended (p : PyPath) (S save_format : Str)
    (hfc : parse_format_check p = some (S, save_format)) :
    ((splitOnChar '_' S).length = 3 →
      ∀ tv : Int, pyInt? ((splitOnChar '_' S).getD 1 []) = some tv →
      ∃ info, parse_model_filename p = Except.ok (some info) ∧
        info.acc_combined = 0 ∧ info.acc_train = 0 ∧ info.acc_val = 0 ∧ info.epoch = 0) ∧
    (4 ≤ (splitOnChar '_' S).length → (splitOnChar '_' S).length ≤ 6 →
      ∃ e, parse_model_filename p = Except.error e) ∧
    (7 ≤ (splitOnChar '_' S).length →
      ∀ (tv ep : Int) (q1 q2 q3 : ℚ),
        pyInt? ((splitOnChar '_' S).getD 1 []) = some tv →
        pyFloat? ((splitOnChar '_' S).getD 3 []) = some q1 →
        pyFloat? ((splitOnChar '_' S).getD 4 []) = some q2 →
        pyFloat? ((splitOnChar '_' S).getD 5 []) = some q3 →
        pyInt? ((splitOnChar '_' S).getD 6 []) = some ep →
        ∃ info, parse_model_filename p = Except.ok (some info) ∧
          info.acc_combined = q1 ∧ info.acc_train = q2 ∧ info.acc_val = q3 ∧
          info.epoch = ep) := by
  refine ⟨?_, ?_, ?_⟩
  · intro hlen tv hint
    have hs1 : (splitOnChar '_' S)[1]? = some ((splitOnChar '_' S).getD 1 []) :=
      getD_getElem? (by omega)
    have hs2 : (splitOnChar '_' S)[2]? = some ((splitOnChar '_' S).getD 2 []) :=
      getD_getElem? (by omega)
    have hacc : parse_accuracies (splitOnChar '_' S) = Except.ok (0, 0, 0, 0) :=
      parse_accuracies_short (by omega)
    rw [parse_model_filename_ok p S save_format hfc hs1 hint hs2, hacc]
    exact ⟨_, rfl, rfl, rfl, rfl, rfl⟩
  · intro h4 h6
    have hs1 : (splitOnChar '_' S)[1]? = some ((splitOnChar '_' S).getD 1 []) :=
      getD_getElem? (by omega)
    cases hint : pyInt? ((splitOnChar '_' S).getD 1 []) with
    | none =>
      exact ⟨PyExc.valueError, parse_model_filename_badint p S save_format hfc hs1 hint⟩
    | some tv =>
      have hs2 : (splitOnChar '_' S)[2]? = some ((splitOnChar '_' S).getD 2 []) :=
        getD_getElem? (by omega)
      obtain ⟨e, he⟩ := parse_accuracies_mid h4 h6
      refine ⟨e, ?_⟩
      rw [parse_model_filename_ok p S save_format hfc hs1 hint hs2, he]
  · intro h7 tv ep q1 q2 q3 hint h3 h4 h5 h6
    have hs1 : (splitOnChar '_' S)[1]? = some ((splitOnChar '_' S).getD 1 []) :=
      getD_getElem? (by omega)
    have hs2 : (splitOnChar '_' S)[2]? = some ((splitOnChar '_' S).getD 2 []) :=
      getD_getElem? (by omega)
    have hacc : parse_accuracies (splitOnChar '_' S) = Except.ok (q1, q2, q3, ep) :=
      parse_accuracies_long (by omega) h3 h4 h5 h6
    rw [parse_model_filename_ok p S save_format hfc hs1 hint hs2, hacc]
    exact ⟨_, rfl, rfl, rfl, rfl, rfl⟩

/-- C6 counterexample: the accepted path `a_1_b_0.5_0.6.hdf5` has a stem with
5 fields (at least 3, fewer than 7), yet decoding raises `IndexError` at
`param_values[5]` instead of succeeding in degraded all-zero form. -/
theorem five_segment_stem_raises :
    (splitOnChar '_' "a_1_b_0.5_0.6".toList).length = 5 ∧
    parse_format_check ⟨"a_1_b_0.5_0.6.hdf5".toList, false⟩ =
      some ("a_1_b_0.5_0.6".toList, ['h', '5']) ∧
    parse_model_filename ⟨"a_1_b_0.5_0.6.hdf5".toList, false⟩ =
      Except.error PyExc.indexError := by
  exact ⟨by decide, rfl, rfl⟩

/-- Witness for the amended C6 theorem: a 3-field stem decodes with zeros, a
4-field stem raises, and a 7-field stem decodes the accuracy fields. -/
theorem segment_count_decode_amended_witness :
    (splitOnChar '_' "a_1_b".toList).length = 3 ∧
    (∃ info, parse_model_filename ⟨"a_1_b.hdf5".toList, false⟩ = Except.ok (some info) ∧
      info.acc_combined = 0 ∧ info.acc_train = 0 ∧ info.acc_val = 0 ∧ info.epoch = 0) ∧
    (splitOnChar '_' "a_1_b_0.5".toList).length = 4 ∧
    (∃ e, parse_model_filename ⟨"a_1_b_0.5.hdf5".toList, false⟩ = Except.error e) ∧
    (splitOnChar '_' "a_1_b_0.50000_0.60000_0.40000_7".toList).length = 7 ∧
    (∃ q1 q2 q3 info,
      pyFloat? "0.50000".toList = some q1 ∧ pyFloat? "0.60000".toList = some q2 ∧
      pyFloat? "0.40000".toList = some q3 ∧
      parse_model_filename ⟨"a_1_b_0.50000_0.60000_0.40000_7.hdf5".toList, false⟩ =
        Except.ok (some info) ∧
      info.acc_combined = q1 ∧ info.acc_train = q2 ∧ info.acc_val = q3 ∧
      info.epoch = 7) := by
  refine ⟨by decide, ?_, by decide, ?_, by decide, ?_⟩
  · obtain ⟨info, hp, h1, h2, h3, h4⟩ :=
      (segment_count_decode_amended ⟨"a_1_b.hdf5".toList, false⟩ "a_1_b".toList
        ['h', '5'] rfl).1 (by decide) _ rfl
    exact ⟨info, hp, h1, h2, h3, h4⟩
  · exact (segment_count_decode_amended ⟨"a_1_b_0.5.hdf5".toList, false⟩
      "a_1_b_0.5".toList ['h', '5'] rfl).2.1 (by decide) (by decide)
  · obtain ⟨info, hp, h1, h2, h3, h4⟩ :=
      (segment_count_decode_amended ⟨"a_1_b_0.50000_0.60000_0.40000_7.hdf5".toList, false⟩
        "a_1_b_0.50000_0.60000_0.40000_7".toList ['h', '5'] rfl).2.2
        (by decide) _ _ _ _ _ rfl rfl rfl rfl rfl
    exact ⟨_, _, _, info, rfl, rfl, rfl, hp, h1, h2, h3, h4⟩

/-- C7: a file with a valid `.h5` suffix whose stem splits into fewer than 3
fields does NOT produce a logged decode failure: the missing early return
makes `param_values[1]` raise `IndexError`, and since `get_models` has no
exception handling the whole scan aborts, losing even the valid entries. -/
theorem short_stem_raises_and_aborts_scan :
    (splitOnChar '_' "ab".toList).length < 3 ∧
    parse_format_check ⟨"ab.h5".toList, false⟩ = some ("ab".toList, ['h', '5']) ∧
    parse_model_filename ⟨"ab.h5".toList, false⟩ = Except.error PyExc.indexError ∧
    Except.map List.length (get_models_scan
      [⟨"a_01_x_0.90000_0.90000_0.90000_3.hdf5".toList, false⟩]) = Except.ok 1 ∧
    get_models_scan [⟨"a_01_x_0.90000_0.90000_0.90000_3.hdf5".toList, false⟩,
      ⟨"ab.h5".toList, false⟩] = Except.error PyExc.indexError := by
  exact ⟨by decide, rfl, rfl, rfl, rfl⟩

/-! ## Scanner layer lemmas and theorems -/

lemma foldl_pick_mem (t : List ModelInfo) :
    ∀ x : ModelInfo,
      t.foldl (fun best r => if best.acc_combined < r.acc_combined then r else best) x ∈
        x :: t := by
  induction t with
  | nil => intro x; simp
  | cons r t ih =>
    intro x
    simp only [List.foldl_cons]
    rcases List.mem_cons.mp (ih (if x.acc_combined < r.acc_combined then r else x)) with h | h
    · rw [h]
      by_cases hc : x.acc_combined < r.acc_combined
      · rw [if_pos hc]
        simp
      · rw [if_neg hc]
        simp
    · simp [h]

lemma argmax_acc_combined_mem {l : List ModelInfo} {m : ModelInfo}
    (h : argmax_acc_combined l = some m) : m ∈ l := by
  cases l with
  | nil => exact absurd h (by simp [argmax_acc_combined])
  | cons x t =>
    have hm : t.foldl (fun best r => if best.acc_combined < r.acc_combined then r else best)
        x = m := by
      simpa [argmax_acc_combined] using h
    rw [← hm]
    exact foldl_pick_mem t x

/-- C10: when no `traindata_version` filter is given, `get_best_model` pins
the version to the maximum over the WHOLE directory, ignoring the
subject/architecture/hyperparams filters; consequently a directory whose
filter-matching records lack the global maximum version yields no result even
though matching records exist, and a directory with no decodable model yields
no result via the `-1` sentinel of `get_max_data_version`. -/
theorem best_model_version_pinning :
    (∀ (entries : List PyPath) (s? a? : Option Str) (h? : Option Int) (m : ModelInfo),
      get_best_model entries s? none a? h? = Except.ok (some m) →
      get_max_data_version entries = Except.ok m.traindata_version) ∧
    (Except.map List.length (get_models
        [⟨"a_01_x_0.90000_0.90000_0.90000_3.hdf5".toList, false⟩,
         ⟨"b_02_y_0.50000_0.50000_0.50000_3.hdf5".toList, false⟩]
        (some "a".toList) none none none) = Except.ok 1 ∧
      get_best_model
        [⟨"a_01_x_0.90000_0.90000_0.90000_3.hdf5".toList, false⟩,
         ⟨"b_02_y_0.50000_0.50000_0.50000_3.hdf5".toList, false⟩]
        (some "a".toList) none none none = Except.ok none) ∧
    (∀ (entries : List PyPath) (s? a? : Option Str) (h? : Option Int),
      get_models entries none none none none = Except.ok [] →
      get_best_model entries s? none a? h? = Except.ok none) := by
  refine ⟨?_, ⟨rfl, rfl⟩, ?_⟩
  · intro entries s? a? h? m h
    cases hgm : get_models entries s? a? none h? with
    | error e =>
      have hb : get_best_model entries s? none a? h? = Except.error e := by
        unfold get_best_model
        rw [hgm]
      rw [hb] at h
      exact absurd h (by simp)
    | ok df =>
      cases hmx : get_max_data_version entries with
      | error e =>
        have hb : get_best_model entries s? none a? h? = Except.error e := by
          unfold get_best_model
          rw [hgm, hmx]
        rw [hb] at h
        exact absurd h (by simp)
      | ok maxv =>
        have hb : get_best_model entries s? none a? h? =
            (if maxv = -1 then Except.ok none
             else Except.ok (argmax_acc_combined
               (df.filter (fun r => r.traindata_version == maxv)))) := by
          unfold get_best_model
          rw [hgm, hmx]
        rw [hb] at h
        by_cases hneg : maxv = -1
        · rw [if_pos hneg] at h
          exact absurd h (by simp)
        · rw [if_neg hneg] at h
          simp only [Except.ok.injEq] at h
          have hmem := argmax_acc_combined_mem h
          have htv : m.traindata_version = maxv := by
            have hf := List.of_mem_filter hmem
            simpa using hf
          rw [htv]
  · intro entries s? a? h? hempty
    have hscan : get_models_scan entries = Except.ok [] := by
      unfold get_models at hempty
      cases hsc : get_models_scan entries with
      | error e =>
        rw [hsc] at hempty
        exact absurd hempty (by simp)
      | ok l =>
        rw [hsc] at hempty
        simp only [Except.ok.injEq] at hempty
        have hself : l.filter (matches_filters none none none none) = l :=
          List.filter_eq_self.mpr (fun a _ => rfl)
        rw [hself] at hempty
        rw [hempty]
    have hmf : get_models entries s? a? none h? = Except.ok [] := by
      unfold get_models
      rw [hscan]
      rfl
    have hmax : get_max_data_version entries = Except.ok (-1) := by
      unfold get_max_data_version
      rw [hempty]
      rfl
    have hb : get_best_model entries s? none a? h? =
        (if (-1 : Int) = -1 then Except.ok none
         else Except.ok (argmax_acc_combined
           (([] : List ModelInfo).filter (fun r => r.traindata_version == -1)))) := by
      unfold get_best_model
      rw [hmf, hmax]
    rw [hb, if_pos rfl]

/-- Witness for C10: in a two-file directory the pinned version is the global
maximum, and on an empty directory the sentinel yields no result. -/
theorem best_model_version_pinning_witness :
    (∃ m, get_best_model
        [⟨"a_01_x_0.90000_0.90000_0.90000_3.hdf5".toList, false⟩,
         ⟨"b_02_y_0.50000_0.50000_0.50000_3.hdf5".toList, false⟩]
        (some "b".toList) none none none = Except.ok (some m) ∧
      get_max_data_version
        [⟨"a_01_x_0.90000_0.90000_0.90000_3.hdf5".toList, false⟩,
         ⟨"b_02_y_0.50000_0.50000_0.50000_3.hdf5".toList, false⟩] =
        Except.ok m.traindata_version) ∧
    get_models [] none none none none = Except.ok [] ∧
    get_best_model [] (some "a".toList) none none none = Except.ok none :=
  ⟨⟨_, rfl, best_model_version_pinning.1 _ (some "b".toList) none none _ rfl⟩, rfl,
    best_model_version_pinning.2.2 [] (some "a".toList) none none rfl⟩

end ModelHelper
